import Mathlib

/-!
Verification of the user-directory service in src/main.py.

The service registers users, derives a unique lowercase alphanumeric handle
(called username in the code) for each, and answers lookup, search and delete
requests.  We give a shallow embedding: the SQL table becomes a list of
records in insertion order, each endpoint becomes a pure function from the
store to a result (and, for mutating endpoints, the successor store), and the
unique-constraint machinery of the store becomes an explicit pre-insert check
whose failure models IntegrityError followed by rollback.

Strings are modelled by Lean strings over their character lists.  Python's
str.lower is modelled by the ASCII case mapping Char.toLower (the claims only
concern ASCII data); str.strip by removal of leading and trailing ASCII
whitespace.
-/

/-! ### Character-level groundwork -/

theorem charToNatOfNat (m : Nat) (h : m < 55296) : (Char.ofNat m).toNat = m := by
  have hv : Nat.isValidChar m := Or.inl h
  rw [Char.ofNat, dif_pos hv]
  simp [Char.ofNatAux, Char.toNat, UInt32.toNat]

theorem charEqOfToNat {a b : Char} (h : a.toNat = b.toNat) : a = b :=
  Char.ext (UInt32.toNat.inj h)

theorem charEqIffToNat {a b : Char} : a = b ↔ a.toNat = b.toNat :=
  ⟨fun h => h ▸ rfl, charEqOfToNat⟩

theorem toLowerToNat (c : Char) :
    c.toLower.toNat = if 65 ≤ c.toNat ∧ c.toNat ≤ 90 then c.toNat + 32 else c.toNat := by
  unfold Char.toLower
  by_cases h : 65 ≤ c.toNat ∧ c.toNat ≤ 90
  · have hlt : c.toNat + 32 < 55296 := by omega
    simp only [ge_iff_le, h, and_self, if_pos, charToNatOfNat _ hlt]
  · rw [if_neg h, if_neg]
    intro hc
    exact h ⟨hc.1, hc.2⟩

theorem toLowerIdem (c : Char) : c.toLower.toLower = c.toLower := by
  apply charEqOfToNat
  rw [toLowerToNat, toLowerToNat c]
  by_cases h : 65 ≤ c.toNat ∧ c.toNat ≤ 90
  · rw [if_pos h, if_neg (by omega)]
  · rw [if_neg h, if_neg h]

theorem isWhitespaceIff (c : Char) :
    c.isWhitespace = true ↔ (c.toNat = 32 ∨ c.toNat = 9 ∨ c.toNat = 13 ∨ c.toNat = 10) := by
  simp only [Char.isWhitespace, Bool.or_eq_true, decide_eq_true_eq]
  rw [charEqIffToNat, charEqIffToNat, charEqIffToNat, charEqIffToNat]
  have h1 : (' '.toNat) = 32 := rfl
  have h2 : ('\t'.toNat) = 9 := rfl
  have h3 : ('\x0d'.toNat) = 13 := rfl
  have h4 : ('\n'.toNat) = 10 := rfl
  rw [h1, h2, h3, h4]
  tauto

theorem isWhitespaceToLower (c : Char) : c.toLower.isWhitespace = c.isWhitespace := by
  have h := toLowerToNat c
  by_cases hu : 65 ≤ c.toNat ∧ c.toNat ≤ 90
  · rw [if_pos hu] at h
    have h1 : c.toLower.isWhitespace = false := by
      rw [← Bool.not_eq_true, isWhitespaceIff, h]
      omega
    have h2 : c.isWhitespace = false := by
      rw [← Bool.not_eq_true, isWhitespaceIff]
      omega
    rw [h1, h2]
  · rw [if_neg hu] at h
    rw [charEqOfToNat h]

/-! ### Models of the Python string primitives used by src/main.py -/

/-- Model of Python str.lower, restricted to the ASCII case mapping. -/
def pyLower (s : String) : String :=
  ⟨s.data.map Char.toLower⟩

/-- Removal of leading and trailing whitespace from a character list. -/
def stripChars (l : List Char) : List Char :=
  ((l.dropWhile Char.isWhitespace).reverse.dropWhile Char.isWhitespace).reverse

/-- Model of Python str.strip: drop leading and trailing whitespace. -/
def pyStrip (s : String) : String :=
  ⟨stripChars s.data⟩

/-- Model of the Python slice s[:1]: the first character of s, if any. -/
def pyTake1 (s : String) : String :=
  ⟨s.data.take 1⟩

/-- Characters that survive the substitution re.sub(dropping every character
outside the ASCII ranges a-z and 0-9) in slugify. -/
def isLowerAlnum (c : Char) : Bool :=
  (97 ≤ c.toNat && c.toNat ≤ 122) || (48 ≤ c.toNat && c.toNat ≤ 57)

/-- Decimal digits of n, least significant first, computed with explicit fuel
so that the definition is structural.  Fuel n always suffices since n / 10
strictly decreases. -/
def decDigitsAux : Nat → Nat → List Char
  | 0, _ => []
  | fuel + 1, n => if n = 0 then [] else Nat.digitChar (n % 10) :: decDigitsAux fuel (n / 10)

/-- Decimal string representation of a natural number, modelling the Python
f-string interpolation of the integer suffix. -/
def natToDec (n : Nat) : String :=
  if n = 0 then "0" else ⟨(decDigitsAux n n).reverse⟩

/-! ### Data model: the users table of src/main.py -/

/-- Calendar date, modelling the birth_date column; its structure is irrelevant
to every claim. -/
structure PyDate where
  year : Nat
  month : Nat
  day : Nat
deriving DecidableEq

/-- One row of the users table (the store-assigned surrogate id is not exposed
by the API and plays no role in the claims, so it is omitted; rows are
identified by their position in the store list). -/
structure UserRecord where
  first_name : String
  last_name : String
  birth_date : PyDate
  email : String
  phone : String
  username : String
deriving DecidableEq

/-- Inbound creation payload (the UserCreate schema). -/
structure UserCreate where
  first_name : String
  last_name : String
  birth_date : PyDate
  email : String
  phone : String
deriving DecidableEq

/-- Typed errors raised by the endpoints: HTTP 409 and HTTP 404. -/
inductive ApiError where
  | conflict
  | notFound
deriving DecidableEq

/-- The store: rows of the users table in insertion order. -/
def usernames (db : List UserRecord) : List String :=
  db.map (fun u => u.username)

/-! ### slugify and generate_unique_username from src/main.py -/

/-- slugify from src/main.py: strip, lowercase, keep only a-z and 0-9. -/
def slugify (s : String) : String :=
  ⟨((pyLower (pyStrip s)).data).filter isLowerAlnum⟩

/-- Candidate sequence probed by generate_unique_username: the base itself,
then base2, base3, ... with the decimal suffix starting at 2. -/
def cand (base : String) : Nat → String
  | 0 => base
  | i + 1 => base ++ natToDec (i + 2)

/-- Probing loop of generate_unique_username, with explicit fuel: return the
first candidate (from index idx on) that is no existing username, or none if
the fuel runs out.  Fuel (number of stored rows + 1) is proved sufficient. -/
def genAux (taken : List String) (base : String) : Nat → Nat → Option String
  | 0, _ => none
  | fuel + 1, idx =>
    if cand base idx ∈ taken then genAux taken base fuel (idx + 1)
    else some (cand base idx)

/-- Derivation of the base candidate in generate_unique_username:
slugify(first_name[:1] + last_name), with fallback base when empty. -/
def deriveBase (first_name last_name : String) : String :=
  let base := slugify (pyTake1 first_name ++ last_name)
  if base = "" then "user" else base

/-- generate_unique_username from src/main.py.  The while loop is embedded via
genAux; the default (never reached, see genAuxTotal) keeps the function
total. -/
def generate_unique_username (db : List UserRecord) (first_name last_name : String) :
    String :=
  let base := deriveBase first_name last_name
  (genAux (usernames db) base (db.length + 1) 0).getD base

/-! ### The four endpoints of src/main.py -/

/-- Normalization applied by create_user when building the row: names and
phone are stripped, the email is lowercased then stripped. -/
def mkUser (p : UserCreate) (username : String) : UserRecord :=
  { first_name := pyStrip p.first_name
    last_name := pyStrip p.last_name
    birth_date := p.birth_date
    email := pyStrip (pyLower p.email)
    phone := pyStrip p.phone
    username := username }

/-- Transactional insert against the two unique columns (email, username):
when some existing row matches either value the commit raises IntegrityError,
the transaction is rolled back (store unchanged) and HTTP 409 is raised;
otherwise the row is appended. -/
def insertUser (db : List UserRecord) (u : UserRecord) :
    Except ApiError UserRecord × List UserRecord :=
  if db.any (fun v => v.email == u.email || v.username == u.username) then
    (.error .conflict, db)
  else
    (.ok u, db ++ [u])

/-- create_user from src/main.py: resolve a free username, normalize the
payload, insert inside one transaction. -/
def create_user (db : List UserRecord) (p : UserCreate) :
    Except ApiError UserRecord × List UserRecord :=
  insertUser db (mkUser p (generate_unique_username db p.first_name p.last_name))

/-- get_user from src/main.py: exact match on the username column, HTTP 404
when no row matches. -/
def get_user (username : String) (db : List UserRecord) : Except ApiError UserRecord :=
  match db.find? (fun u => u.username == username) with
  | none => .error .notFound
  | some u => .ok u

/-- delete_user from src/main.py: exact match on the username column, HTTP 404
when no row matches, otherwise hard removal of the matched row. -/
def delete_user (username : String) (db : List UserRecord) :
    Except ApiError Unit × List UserRecord :=
  match db.find? (fun u => u.username == username) with
  | none => (.error .notFound, db)
  | some _ => (.ok (), db.eraseP (fun u => u.username == username))

/-! ### search_users from src/main.py -/

/-- Case-insensitive SQL LIKE matching (SQLAlchemy ilike), written with
explicit fuel so that the definition is structural; the percent sign matches
any sequence, the underscore any single character, any other pattern
character matches itself up to ASCII case.  Fuel (pattern length + subject
length + 1) always suffices since every recursive call shrinks one of the
lists. -/
def likeMatchF : Nat → List Char → List Char → Bool
  | 0, _, _ => false
  | fuel + 1, p, s =>
    match p, s with
    | [], rest => rest.isEmpty
    | '%' :: p', rest =>
      likeMatchF fuel p' rest ||
        (match rest with
         | [] => false
         | _ :: s' => likeMatchF fuel ('%' :: p') s')
    | '_' :: _, [] => false
    | '_' :: p', _ :: s' => likeMatchF fuel p' s'
    | _ :: _, [] => false
    | c :: p', d :: s' => (c.toLower == d.toLower) && likeMatchF fuel p' s'

/-- ilike of SQLAlchemy on the SQLite store: case-insensitive LIKE. -/
def ilike (pat subject : String) : Bool :=
  likeMatchF (pat.length + subject.length + 1) pat.data subject.data

/-- Free-text clause of search_users: the stripped text, wrapped in percent
signs, ilike-matched against any of the five columns. -/
def qPred (s : String) (u : UserRecord) : Bool :=
  let like := "%" ++ pyStrip s ++ "%"
  ilike like u.first_name || ilike like u.last_name || ilike like u.email ||
    ilike like u.phone || ilike like u.username

/-- One conditional where clause of search_users: the Python pattern of
testing a filter argument for truthiness (absent or empty means no clause)
and otherwise conjoining one more where condition to the statement. -/
def applyOpt (o : Option String) (p : String → UserRecord → Bool)
    (l : List UserRecord) : List UserRecord :=
  match o with
  | some s => if s = "" then l else l.filter (p s)
  | none => l

/-- search_users from src/main.py: the statement starts from the whole table,
each present and non-empty filter adds one where clause (the free-text clause
first, then the five per-field clauses, each an ilike against the stripped
text wrapped in percent signs, the email and username texts also lowercased),
then offset and limit are applied.  Successive where clauses are embedded as
successive list filters. -/
def search_users (q first_name last_name email phone username : Option String)
    (limit offset : Nat) (db : List UserRecord) : List UserRecord :=
  let stmt := db
  let stmt := applyOpt q qPred stmt
  let stmt := applyOpt first_name
    (fun s u => ilike ("%" ++ pyStrip s ++ "%") u.first_name) stmt
  let stmt := applyOpt last_name
    (fun s u => ilike ("%" ++ pyStrip s ++ "%") u.last_name) stmt
  let stmt := applyOpt email
    (fun s u => ilike ("%" ++ pyLower (pyStrip s) ++ "%") u.email) stmt
  let stmt := applyOpt phone
    (fun s u => ilike ("%" ++ pyStrip s ++ "%") u.phone) stmt
  let stmt := applyOpt username
    (fun s u => ilike ("%" ++ pyLower (pyStrip s) ++ "%") u.username) stmt
  (stmt.drop offset).take limit

/-! ### Reachable store states -/

/-- Store states reachable through any sequence of create and delete
operations, starting from the empty table (both the success and the error
outcome of each operation are covered; errors leave the store unchanged). -/
inductive Reachable : List UserRecord → Prop where
  | empty : Reachable []
  | create (db : List UserRecord) (p : UserCreate) (r : Except ApiError UserRecord)
      (db' : List UserRecord) :
      Reachable db → create_user db p = (r, db') → Reachable db'
  | delete (db : List UserRecord) (h : String) (r : Except ApiError Unit)
      (db' : List UserRecord) :
      Reachable db → delete_user h db = (r, db') → Reachable db'

/-! ### Properties of the decimal representation -/

/-- Decoder for decimal digit lists (least significant first), used to prove
natToDec injective. -/
def decValLE : List Char → Nat
  | [] => 0
  | c :: cs => (c.toNat - 48) + 10 * decValLE cs

theorem digitCharToNat (d : Nat) (h : d < 10) : (Nat.digitChar d).toNat = d + 48 := by
  interval_cases d <;> rfl

theorem decValLE_decDigitsAux (fuel : Nat) :
    ∀ n, n ≤ fuel → decValLE (decDigitsAux fuel n) = n := by
  induction fuel with
  | zero =>
    intro n hn
    interval_cases n
    rfl
  | succ fuel ih =>
    intro n hn
    by_cases h0 : n = 0
    · subst h0
      simp [decDigitsAux, decValLE]
    · rw [decDigitsAux, if_neg h0]
      rw [decValLE, ih (n / 10) (by omega)]
      rw [digitCharToNat (n % 10) (by omega)]
      omega

theorem decDigitsAux_ne_nil (fuel n : Nat) (hn : n ≠ 0) (hf : fuel ≠ 0) :
    decDigitsAux fuel n ≠ [] := by
  match fuel with
  | f + 1 =>
    rw [decDigitsAux, if_neg hn]
    exact List.cons_ne_nil _ _

theorem natToDec_data (n : Nat) (hn : n ≠ 0) :
    (natToDec n).data = (decDigitsAux n n).reverse := by
  rw [natToDec, if_neg hn]

theorem natToDec_ne_empty (n : Nat) : (natToDec n).data ≠ [] := by
  by_cases h0 : n = 0
  · subst h0
    intro h
    exact absurd h (by decide)
  · rw [natToDec_data n h0]
    intro h
    exact decDigitsAux_ne_nil n n h0 h0 (List.reverse_eq_nil_iff.mp h)

theorem natToDec_inj {m n : Nat} (h : natToDec m = natToDec n) : m = n := by
  have hd : (natToDec m).data = (natToDec n).data := by rw [h]
  by_cases hm : m = 0 <;> by_cases hn : n = 0
  · omega
  · subst hm
    have h0 : (natToDec 0).data = ['0'] := rfl
    rw [h0, natToDec_data n hn] at hd
    have : decDigitsAux n n = ['0'] := by
      have := congrArg List.reverse hd
      simpa using this.symm
    have hdec := decValLE_decDigitsAux n n (le_refl n)
    rw [this] at hdec
    simp [decValLE] at hdec
    exact absurd hdec.symm hn
  · subst hn
    have h0 : (natToDec 0).data = ['0'] := rfl
    rw [h0, natToDec_data m hm] at hd
    have : decDigitsAux m m = ['0'] := by
      have := congrArg List.reverse hd
      simpa using this
    have hdec := decValLE_decDigitsAux m m (le_refl m)
    rw [this] at hdec
    simp [decValLE] at hdec
    exact absurd hdec.symm hm
  · rw [natToDec_data m hm, natToDec_data n hn] at hd
    have hl : decDigitsAux m m = decDigitsAux n n := by
      have := congrArg List.reverse hd
      simpa using this
    have h1 := decValLE_decDigitsAux m m (le_refl m)
    have h2 := decValLE_decDigitsAux n n (le_refl n)
    rw [hl, h2] at h1
    exact h1.symm

/-! ### Properties of the candidate sequence and the probing loop -/

theorem string_append_data (a b : String) : (a ++ b).data = a.data ++ b.data :=
  String.data_append a b

theorem cand_inj (base : String) : ∀ {i j : Nat}, cand base i = cand base j → i = j := by
  intro i j h
  match i, j with
  | 0, 0 => rfl
  | 0, j + 1 =>
    exfalso
    have := congrArg (fun s => s.data.length) h
    simp only [cand, string_append_data, List.length_append] at this
    have hne := natToDec_ne_empty (j + 2)
    have : (natToDec (j + 2)).data.length = 0 := by omega
    exact hne (List.length_eq_zero.mp this)
  | i + 1, 0 =>
    exfalso
    have := congrArg (fun s => s.data.length) h
    simp only [cand, string_append_data, List.length_append] at this
    have hne := natToDec_ne_empty (i + 2)
    have : (natToDec (i + 2)).data.length = 0 := by omega
    exact hne (List.length_eq_zero.mp this)
  | i + 1, j + 1 =>
    have hdata := congrArg String.data h
    simp only [cand, string_append_data] at hdata
    have hsuffix : (natToDec (i + 2)).data = (natToDec (j + 2)).data :=
      List.append_cancel_left hdata
    have : natToDec (i + 2) = natToDec (j + 2) := congrArg String.mk hsuffix
    have := natToDec_inj this
    omega

theorem exists_cand_free (taken : List String) (base : String) :
    ∃ i, i ≤ taken.length ∧ cand base i ∉ taken := by
  by_contra hcon
  push_neg at hcon
  have hsub : (Finset.range (taken.length + 1)).image (cand base) ⊆ taken.toFinset := by
    intro s hs
    rw [Finset.mem_image] at hs
    obtain ⟨i, hi, rfl⟩ := hs
    rw [List.mem_toFinset]
    exact hcon i (by simpa using Nat.lt_succ_iff.mp (Finset.mem_range.mp hi))
  have hcard : ((Finset.range (taken.length + 1)).image (cand base)).card = taken.length + 1 := by
    rw [Finset.card_image_of_injOn fun i _ j _ h => cand_inj base h]
    exact Finset.card_range _
  have := Finset.card_le_card hsub
  have := List.toFinset_card_le taken
  omega

theorem genAux_sound (taken : List String) (base : String) :
    ∀ fuel idx c, genAux taken base fuel idx = some c →
      ∃ i, idx ≤ i ∧ c = cand base i ∧ cand base i ∉ taken ∧
        ∀ j, idx ≤ j → j < i → cand base j ∈ taken := by
  intro fuel
  induction fuel with
  | zero =>
    intro idx c h
    exact absurd h (by simp [genAux])
  | succ fuel ih =>
    intro idx c h
    rw [genAux] at h
    by_cases hmem : cand base idx ∈ taken
    · rw [if_pos hmem] at h
      obtain ⟨i, hi1, hi2, hi3, hi4⟩ := ih (idx + 1) c h
      refine ⟨i, by omega, hi2, hi3, fun j hj1 hj2 => ?_⟩
      by_cases hj : j = idx
      · subst hj
        exact hmem
      · exact hi4 j (by omega) hj2
    · rw [if_neg hmem] at h
      refine ⟨idx, le_refl idx, (Option.some_inj.mp h).symm, hmem, fun j hj1 hj2 => ?_⟩
      omega

theorem genAux_isSome (taken : List String) (base : String) :
    ∀ fuel idx, (∃ i, idx ≤ i ∧ i < idx + fuel ∧ cand base i ∉ taken) →
      (genAux taken base fuel idx).isSome := by
  intro fuel
  induction fuel with
  | zero =>
    intro idx ⟨i, h1, h2, _⟩
    omega
  | succ fuel ih =>
    intro idx ⟨i, h1, h2, h3⟩
    rw [genAux]
    by_cases hmem : cand base idx ∈ taken
    · rw [if_pos hmem]
      apply ih (idx + 1)
      refine ⟨i, ?_, by omega, h3⟩
      rcases Nat.eq_or_lt_of_le h1 with heq | hlt
      · exact absurd (heq ▸ h3) (fun hcon => hcon hmem)
      · omega
    · rw [if_neg hmem]
      rfl

theorem genAuxTotal (taken : List String) (base : String) :
    ∃ c, genAux taken base (taken.length + 1) 0 = some c := by
  obtain ⟨i, hi, hfree⟩ := exists_cand_free taken base
  have := genAux_isSome taken base (taken.length + 1) 0 ⟨i, Nat.zero_le i, by omega, hfree⟩
  exact Option.isSome_iff_exists.mp this

theorem usernames_length (db : List UserRecord) : (usernames db).length = db.length :=
  List.length_map db _

/-- Full characterization of generate_unique_username: it returns the first
candidate of the probe sequence that is no existing username. -/
theorem generate_spec (db : List UserRecord) (fn ln : String) :
    ∃ i, generate_unique_username db fn ln = cand (deriveBase fn ln) i ∧
      cand (deriveBase fn ln) i ∉ usernames db ∧
      ∀ j, j < i → cand (deriveBase fn ln) j ∈ usernames db := by
  obtain ⟨c, hc⟩ := by
    have := genAuxTotal (usernames db) (deriveBase fn ln)
    rwa [usernames_length] at this
  obtain ⟨i, _, h2, h3, h4⟩ := genAux_sound (usernames db) (deriveBase fn ln) _ _ _ hc
  refine ⟨i, ?_, h3, fun j hj => h4 j (Nat.zero_le j) hj⟩
  rw [generate_unique_username, hc]
  exact h2

/-! ### Properties of slugify and the derived base -/

theorem isLowerAlnumIff (c : Char) :
    isLowerAlnum c = true ↔
      (97 ≤ c.toNat ∧ c.toNat ≤ 122) ∨ (48 ≤ c.toNat ∧ c.toNat ≤ 57) := by
  simp [isLowerAlnum, Bool.or_eq_true, Bool.and_eq_true, decide_eq_true_eq]

theorem whitespace_not_lowerAlnum (c : Char) (h : c.isWhitespace = true) :
    isLowerAlnum c = false := by
  rw [← Bool.not_eq_true, isLowerAlnumIff]
  rw [isWhitespaceIff] at h
  omega

theorem stripChars_decomp (l : List Char) :
    ∃ pre suf, l = pre ++ stripChars l ++ suf ∧
      (∀ c ∈ pre, c.isWhitespace = true) ∧ (∀ c ∈ suf, c.isWhitespace = true) := by
  refine ⟨l.takeWhile Char.isWhitespace,
    ((l.dropWhile Char.isWhitespace).reverse.takeWhile Char.isWhitespace).reverse, ?_, ?_, ?_⟩
  · conv_lhs => rw [← List.takeWhile_append_dropWhile Char.isWhitespace l]
    rw [List.append_assoc]
    congr 1
    conv_lhs => rw [← List.reverse_reverse (l.dropWhile Char.isWhitespace)]
    conv_lhs =>
      rw [← List.takeWhile_append_dropWhile Char.isWhitespace
        (l.dropWhile Char.isWhitespace).reverse]
    rw [List.reverse_append]
    rfl
  · intro c hc
    exact List.mem_takeWhile_imp hc
  · intro c hc
    rw [List.mem_reverse] at hc
    exact List.mem_takeWhile_imp hc

theorem filter_map_stripChars (l : List Char) :
    (List.map Char.toLower (stripChars l)).filter isLowerAlnum =
      (List.map Char.toLower l).filter isLowerAlnum := by
  obtain ⟨pre, suf, hdec, hpre, hsuf⟩ := stripChars_decomp l
  conv_rhs => rw [hdec]
  rw [List.map_append, List.map_append, List.filter_append, List.filter_append]
  have hp : (List.map Char.toLower pre).filter isLowerAlnum = [] := by
    rw [List.filter_eq_nil_iff]
    intro a ha
    rw [List.mem_map] at ha
    obtain ⟨c, hc, rfl⟩ := ha
    have : c.toLower.isWhitespace = true := by rw [isWhitespaceToLower]; exact hpre c hc
    simp [whitespace_not_lowerAlnum _ this]
  have hs : (List.map Char.toLower suf).filter isLowerAlnum = [] := by
    rw [List.filter_eq_nil_iff]
    intro a ha
    rw [List.mem_map] at ha
    obtain ⟨c, hc, rfl⟩ := ha
    have : c.toLower.isWhitespace = true := by rw [isWhitespaceToLower]; exact hsuf c hc
    simp [whitespace_not_lowerAlnum _ this]
  rw [hp, hs]
  simp

theorem slugify_eq_filter_lower (s : String) :
    slugify s = ⟨(s.data.map Char.toLower).filter isLowerAlnum⟩ := by
  rw [slugify]
  congr 1
  have : (pyLower (pyStrip s)).data = List.map Char.toLower (stripChars s.data) := rfl
  rw [this, filter_map_stripChars]

theorem slugify_chars (s : String) : ∀ c ∈ (slugify s).data, isLowerAlnum c = true := by
  intro c hc
  rw [slugify] at hc
  exact List.of_mem_filter hc

theorem deriveBase_ne_empty (fn ln : String) : deriveBase fn ln ≠ "" := by
  rw [deriveBase]
  by_cases h : slugify (pyTake1 fn ++ ln) = ""
  · rw [if_pos h]
    decide
  · rw [if_neg h]
    exact h

theorem deriveBase_chars (fn ln : String) :
    ∀ c ∈ (deriveBase fn ln).data, isLowerAlnum c = true := by
  rw [deriveBase]
  by_cases h : slugify (pyTake1 fn ++ ln) = ""
  · rw [if_pos h]
    decide
  · rw [if_neg h]
    exact slugify_chars _

theorem natToDec_chars (n : Nat) : ∀ c ∈ (natToDec n).data, isLowerAlnum c = true := by
  have aux : ∀ fuel m, ∀ c ∈ decDigitsAux fuel m, isLowerAlnum c = true := by
    intro fuel
    induction fuel with
    | zero =>
      intro m c hc
      exact absurd hc (by simp [decDigitsAux])
    | succ fuel ih =>
      intro m c hc
      rw [decDigitsAux] at hc
      by_cases h0 : m = 0
      · rw [if_pos h0] at hc
        exact absurd hc (by simp)
      · rw [if_neg h0] at hc
        rcases List.mem_cons.mp hc with h | h
        · subst h
          rw [isLowerAlnumIff, digitCharToNat (m % 10) (by omega)]
          omega
        · exact ih (m / 10) c h
  intro c hc
  by_cases h0 : n = 0
  · subst h0
    have hd : (natToDec 0).data = ['0'] := rfl
    rw [hd, List.mem_singleton] at hc
    subst hc
    decide
  · rw [natToDec_data n h0, List.mem_reverse] at hc
    exact aux n n c hc

theorem cand_chars (fn ln : String) (i : Nat) :
    ∀ c ∈ (cand (deriveBase fn ln) i).data, isLowerAlnum c = true := by
  match i with
  | 0 => exact deriveBase_chars fn ln
  | i + 1 =>
    intro c hc
    rw [cand, string_append_data, List.mem_append] at hc
    rcases hc with h | h
    · exact deriveBase_chars fn ln c h
    · exact natToDec_chars (i + 2) c h

theorem generate_unique_username_chars (db : List UserRecord) (fn ln : String) :
    ∀ c ∈ (generate_unique_username db fn ln).data, isLowerAlnum c = true := by
  obtain ⟨i, heq, _, _⟩ := generate_spec db fn ln
  rw [heq]
  exact cand_chars fn ln i

/-! ### Interaction of the lower and strip normalizations -/

theorem pyLower_pyLower (s : String) : pyLower (pyLower s) = pyLower s := by
  rw [pyLower, pyLower]
  congr 1
  rw [List.map_map]
  exact List.map_congr_left fun c _ => toLowerIdem c

theorem stripChars_map_toLower (l : List Char) :
    stripChars (List.map Char.toLower l) = List.map Char.toLower (stripChars l) := by
  have hcomp : (Char.isWhitespace ∘ Char.toLower) = Char.isWhitespace := by
    funext c
    exact isWhitespaceToLower c
  rw [stripChars, stripChars]
  rw [List.dropWhile_map, hcomp, ← List.map_reverse, List.dropWhile_map, hcomp,
    ← List.map_reverse]

theorem pyStrip_pyLower (s : String) : pyStrip (pyLower s) = pyLower (pyStrip s) := by
  rw [pyStrip, pyLower, pyStrip, pyLower]
  congr 1
  exact stripChars_map_toLower s.data

theorem emailNorm_fixed (e : String) :
    pyLower (pyStrip (pyLower e)) = pyStrip (pyLower e) := by
  rw [← pyStrip_pyLower, pyLower_pyLower, pyStrip_pyLower]

/-! ### Basic facts about the endpoints -/

theorem insertUser_guard (db : List UserRecord) (u : UserRecord) :
    (db.any fun v => v.email == u.email || v.username == u.username) = true ↔
      ∃ v ∈ db, v.email = u.email ∨ v.username = u.username := by
  simp [List.any_eq_true, Bool.or_eq_true, beq_iff_eq]

theorem insertUser_conflict (db : List UserRecord) (u : UserRecord)
    (h : ∃ v ∈ db, v.email = u.email ∨ v.username = u.username) :
    insertUser db u = (.error .conflict, db) := by
  rw [insertUser, if_pos ((insertUser_guard db u).mpr h)]

theorem insertUser_ok (db : List UserRecord) (u : UserRecord)
    (h : ¬∃ v ∈ db, v.email = u.email ∨ v.username = u.username) :
    insertUser db u = (.ok u, db ++ [u]) := by
  rw [insertUser, if_neg]
  intro hc
  exact h ((insertUser_guard db u).mp hc)

theorem insertUser_cases (db : List UserRecord) (u : UserRecord) :
    insertUser db u = (.error .conflict, db) ∨ insertUser db u = (.ok u, db ++ [u]) := by
  by_cases h : ∃ v ∈ db, v.email = u.email ∨ v.username = u.username
  · exact Or.inl (insertUser_conflict db u h)
  · exact Or.inr (insertUser_ok db u h)

theorem get_user_none_iff (h : String) (db : List UserRecord) :
    get_user h db = .error .notFound ↔ ∀ u ∈ db, u.username ≠ h := by
  rw [get_user]
  cases hf : db.find? (fun u => u.username == h) with
  | none =>
    rw [List.find?_eq_none] at hf
    simp only [beq_iff_eq] at hf
    simpa using hf
  | some u =>
    have h1 : u ∈ db := List.mem_of_find?_eq_some hf
    have h2 : u.username = h := by
      have := List.find?_some hf
      exact beq_iff_eq.mp this
    constructor
    · intro hcon
      exact absurd hcon (by simp)
    · intro hall
      exact absurd h2 (hall u h1)

theorem delete_user_none_iff (h : String) (db : List UserRecord) :
    (delete_user h db).1 = .error .notFound ↔ ∀ u ∈ db, u.username ≠ h := by
  rw [delete_user]
  cases hf : db.find? (fun u => u.username == h) with
  | none =>
    rw [List.find?_eq_none] at hf
    simp only [beq_iff_eq] at hf
    simpa using hf
  | some u =>
    have h1 : u ∈ db := List.mem_of_find?_eq_some hf
    have h2 : u.username = h := by
      have := List.find?_some hf
      exact beq_iff_eq.mp this
    constructor
    · intro hcon
      exact absurd hcon (by simp)
    · intro hall
      exact absurd h2 (hall u h1)

/-! ### The store invariant and reachability -/

/-- Invariant maintained by the two unique constraints together with the
normalizations applied by create_user: stored emails are pairwise distinct
and already lowercased, stored usernames are pairwise distinct and consist
only of lowercase alphanumeric characters. -/
def storeInv (db : List UserRecord) : Prop :=
  db.Pairwise (fun a b => a.email ≠ b.email ∧ a.username ≠ b.username) ∧
    ∀ u ∈ db, pyLower u.email = u.email ∧ ∀ c ∈ u.username.data, isLowerAlnum c = true

theorem storeInv_nil : storeInv [] := by
  constructor
  · exact List.Pairwise.nil
  · intro u hu
    exact absurd hu (List.not_mem_nil u)

theorem storeInv_create (db : List UserRecord) (p : UserCreate)
    (r : Except ApiError UserRecord) (db' : List UserRecord)
    (hinv : storeInv db) (h : create_user db p = (r, db')) : storeInv db' := by
  rw [create_user] at h
  set u := mkUser p (generate_unique_username db p.first_name p.last_name) with hu
  rcases insertUser_cases db u with hcase | hcase
  · rw [hcase] at h
    rw [← (Prod.mk.injEq _ _ _ _ |>.mp h).2]
    exact hinv
  · rw [hcase] at h
    rw [← (Prod.mk.injEq _ _ _ _ |>.mp h).2]
    have hfresh : ¬∃ v ∈ db, v.email = u.email ∨ v.username = u.username := by
      intro hcon
      rw [insertUser_conflict db u hcon] at hcase
      exact absurd (Prod.mk.injEq _ _ _ _ |>.mp hcase).1 (by simp)
    constructor
    · rw [List.pairwise_append]
      refine ⟨hinv.1, List.pairwise_singleton _ _, ?_⟩
      intro a ha b hb
      rw [List.mem_singleton] at hb
      subst hb
      constructor
      · intro hcon
        exact hfresh ⟨a, ha, Or.inl hcon⟩
      · intro hcon
        exact hfresh ⟨a, ha, Or.inr hcon⟩
    · intro v hv
      rw [List.mem_append] at hv
      rcases hv with hv | hv
      · exact hinv.2 v hv
      · rw [List.mem_singleton] at hv
        subst hv
        constructor
        · exact emailNorm_fixed p.email
        · exact generate_unique_username_chars db p.first_name p.last_name

theorem storeInv_delete (db : List UserRecord) (hstr : String)
    (r : Except ApiError Unit) (db' : List UserRecord)
    (hinv : storeInv db) (h : delete_user hstr db = (r, db')) : storeInv db' := by
  rw [delete_user] at h
  cases hf : db.find? (fun u => u.username == hstr) with
  | none =>
    rw [hf] at h
    rw [← (Prod.mk.injEq _ _ _ _ |>.mp h).2]
    exact hinv
  | some u =>
    rw [hf] at h
    rw [← (Prod.mk.injEq _ _ _ _ |>.mp h).2]
    have hsub : (db.eraseP (fun u => u.username == hstr)).Sublist db := List.eraseP_sublist db
    constructor
    · exact hinv.1.sublist hsub
    · intro v hv
      exact hinv.2 v (hsub.subset hv)

theorem reachable_storeInv (db : List UserRecord) (h : Reachable db) : storeInv db := by
  induction h with
  | empty => exact storeInv_nil
  | create db p r db' _ heq ih => exact storeInv_create db p r db' ih heq
  | delete db hstr r db' _ heq ih => exact storeInv_delete db hstr r db' ih heq

/-- Decidable equality for endpoint results, so that concrete runs of the
endpoints can be checked by evaluation. -/
instance exceptDecEq {ε α : Type} [DecidableEq ε] [DecidableEq α] :
    DecidableEq (Except ε α)
  | .ok a, .ok b =>
    if h : a = b then .isTrue (by rw [h]) else .isFalse (fun hc => h (Except.ok.inj hc))
  | .ok _, .error _ => .isFalse (fun hc => Except.noConfusion hc)
  | .error _, .ok _ => .isFalse (fun hc => Except.noConfusion hc)
  | .error e, .error f =>
    if h : e = f then .isTrue (by rw [h]) else .isFalse (fun hc => h (Except.error.inj hc))

/-! ### Sample data used by witnesses and counterexamples -/

/-- Sample row: the record persisted by a creation request for Ann Lee. -/
def annUser : UserRecord :=
  { first_name := "Ann", last_name := "Lee", birth_date := ⟨1990, 1, 1⟩,
    email := "ann@x.y", phone := "123", username := "alee" }

/-- Sample row: the record persisted for Amy Lee when Ann Lee already holds
the base handle alee. -/
def amyUser : UserRecord :=
  { first_name := "Amy", last_name := "Lee", birth_date := ⟨1991, 2, 3⟩,
    email := "amy@x.y", phone := "456", username := "alee2" }

/-- Sample creation payload for Ann Lee (email in mixed case). -/
def annPayload : UserCreate :=
  { first_name := "Ann", last_name := "Lee", birth_date := ⟨1990, 1, 1⟩,
    email := "Ann@X.Y", phone := "123" }

/-- Sample creation payload for Amy Lee. -/
def amyPayload : UserCreate :=
  { first_name := "Amy", last_name := "Lee", birth_date := ⟨1991, 2, 3⟩,
    email := "Amy@X.Y", phone := "456" }

/-- Second payload for Ann Lee with a fresh email, used by the race
counterexample: same derived base, different email. -/
def annPayload2 : UserCreate :=
  { first_name := "Ann", last_name := "Lee", birth_date := ⟨1992, 3, 4⟩,
    email := "ann2@x.y", phone := "789" }

/-! ### Claim C1: resolver probe order -/

/-- Claim C1: for every store state and base, generate_unique_username returns
the base itself when no record holds it; otherwise it returns base followed by
the decimal suffix k, where k is the least integer at least 2 such that
base + str(k) is the handle of no existing record, candidates being probed in
the order base, base2, base3, and so on. -/
theorem C1_resolver_probe_order (db : List UserRecord) (fn ln : String) :
    (deriveBase fn ln ∉ usernames db →
      generate_unique_username db fn ln = deriveBase fn ln) ∧
    (deriveBase fn ln ∈ usernames db →
      ∃ k, 2 ≤ k ∧
        generate_unique_username db fn ln = deriveBase fn ln ++ natToDec k ∧
        (deriveBase fn ln ++ natToDec k) ∉ usernames db ∧
        ∀ j, 2 ≤ j → j < k → (deriveBase fn ln ++ natToDec j) ∈ usernames db) := by
  obtain ⟨i, heq, hfree, hmin⟩ := generate_spec db fn ln
  constructor
  · intro hb
    match i, heq, hfree, hmin with
    | 0, heq, _, _ => exact heq
    | i + 1, _, _, hmin => exact absurd (hmin 0 (by omega)) hb
  · intro hb
    match i, heq, hfree, hmin with
    | 0, _, hfree, _ => exact absurd hb hfree
    | i + 1, heq, hfree, hmin =>
      refine ⟨i + 2, by omega, heq, hfree, ?_⟩
      intro j hj2 hjlt
      obtain ⟨j', rfl⟩ : ∃ j', j = j' + 2 := ⟨j - 2, by omega⟩
      exact hmin (j' + 1) (by omega)

/-- Witness for C1 at concrete inputs: on the empty store Ann Lee takes the
base handle; when it is taken the next creation takes the first free decimal
suffix starting at 2. -/
theorem C1_witness :
    generate_unique_username [] "Ann" "Lee" = deriveBase "Ann" "Lee" ∧
    ∃ k, 2 ≤ k ∧
      generate_unique_username [annUser] "Ann" "Lee" = deriveBase "Ann" "Lee" ++ natToDec k ∧
      (deriveBase "Ann" "Lee" ++ natToDec k) ∉ usernames [annUser] ∧
      ∀ j, 2 ≤ j → j < k → (deriveBase "Ann" "Lee" ++ natToDec j) ∈ usernames [annUser] :=
  ⟨(C1_resolver_probe_order [] "Ann" "Lee").1 (by decide),
   (C1_resolver_probe_order [annUser] "Ann" "Lee").2 (by decide)⟩

/-! ### Claim C2: handle derivation -/

/-- Handle derivation exactly as the specification words it: the first
character of firstName concatenated with all of lastName, lowercased, with
every character outside a-z0-9 deleted, and the fixed fallback when the
result is empty. -/
def specDerive (first_name last_name : String) : String :=
  let r : String := ⟨((first_name.data.take 1 ++ last_name.data).map Char.toLower).filter
    isLowerAlnum⟩
  if r = "" then "user" else r

/-- Claim C2: the derived base equals the specification's description of the
derivation (first character of firstName plus lastName, lowercased, stripped
of everything outside a-z0-9, with fallback user), and it is always non-empty
and lowercase alphanumeric. -/
theorem C2_derivation_pure (fn ln : String) :
    deriveBase fn ln = specDerive fn ln ∧ deriveBase fn ln ≠ "" ∧
      ∀ c ∈ (deriveBase fn ln).data, isLowerAlnum c = true := by
  refine ⟨?_, deriveBase_ne_empty fn ln, deriveBase_chars fn ln⟩
  have hs : slugify (pyTake1 fn ++ ln) =
      ⟨((fn.data.take 1 ++ ln.data).map Char.toLower).filter isLowerAlnum⟩ := by
    rw [slugify_eq_filter_lower, string_append_data]
    rfl
  rw [deriveBase, specDerive, hs]

/-! ### Claim C8: resolver termination -/

/-- Claim C8: for every store state the probing loop terminates; fuel linear
in the store size (number of rows + 1) already suffices, so no artificial cap
is involved, and the returned candidate is free. -/
theorem C8_resolver_terminates (db : List UserRecord) (fn ln : String) :
    ∃ c, genAux (usernames db) (deriveBase fn ln) (db.length + 1) 0 = some c ∧
      generate_unique_username db fn ln = c ∧ c ∉ usernames db := by
  have htot := genAuxTotal (usernames db) (deriveBase fn ln)
  rw [usernames_length] at htot
  obtain ⟨c, hc⟩ := htot
  obtain ⟨i, _, h2, h3, _⟩ := genAux_sound (usernames db) (deriveBase fn ln) _ _ _ hc
  refine ⟨c, hc, ?_, ?_⟩
  · rw [generate_unique_username, hc]
    rfl
  · rw [h2]
    exact h3

/-! ### Claim C3: store uniqueness invariant -/

/-- Claim C3: in every reachable store state no two records agree on the
email after lowercasing and no two records agree on the handle. -/
theorem C3_store_uniqueness (db : List UserRecord) (h : Reachable db) :
    db.Pairwise (fun a b => pyLower a.email ≠ pyLower b.email ∧ a.username ≠ b.username) := by
  have hinv := reachable_storeInv db h
  refine List.Pairwise.imp_of_mem ?_ hinv.1
  intro a b ha hb hr
  refine ⟨?_, hr.2⟩
  rw [(hinv.2 a ha).1, (hinv.2 b hb).1]
  exact hr.1

/-- Witness for C3: the store reached by registering Ann Lee and then Amy Lee
satisfies the pairwise uniqueness property. -/
theorem C3_witness :
    List.Pairwise (fun a b => pyLower a.email ≠ pyLower b.email ∧ a.username ≠ b.username)
      [annUser, amyUser] :=
  C3_store_uniqueness [annUser, amyUser]
    (Reachable.create [annUser] amyPayload (.ok amyUser) [annUser, amyUser]
      (Reachable.create [] annPayload (.ok annUser) [annUser] Reachable.empty (by decide))
      (by decide))

/-! ### Claim C4: conflict semantics of create -/

/-- Payload whose email, after lowercasing and trimming, collides with the
email stored for Ann Lee. -/
def dupPayload : UserCreate :=
  { first_name := "Bob", last_name := "Kay", birth_date := ⟨1993, 5, 6⟩,
    email := " ANN@X.Y ", phone := "555" }

/-- Claim C4: create raises Conflict exactly when the insert would violate
the email or handle uniqueness constraint; on conflict the store is
unchanged (rollback, atomicity) and the single undifferentiated Conflict is
raised with no internal retry; two sequential creates whose emails agree
after lowercasing and trimming make the second conflict. -/
theorem C4_conflict_semantics (db : List UserRecord) (p : UserCreate) :
    ((create_user db p).1 = .error .conflict ↔
      ∃ v ∈ db, v.email = pyStrip (pyLower p.email) ∨
        v.username = generate_unique_username db p.first_name p.last_name) ∧
    (∀ e, (create_user db p).1 = .error e → (create_user db p).2 = db) ∧
    (∀ u db' p2, create_user db p = (.ok u, db') →
      pyStrip (pyLower p2.email) = pyStrip (pyLower p.email) →
      (create_user db' p2).1 = .error .conflict) := by
  have hcu : create_user db p =
      insertUser db (mkUser p (generate_unique_username db p.first_name p.last_name)) := rfl
  by_cases hex : ∃ v ∈ db,
      v.email = pyStrip (pyLower p.email) ∨
        v.username = generate_unique_username db p.first_name p.last_name
  · have heq := insertUser_conflict db
      (mkUser p (generate_unique_username db p.first_name p.last_name)) hex
    rw [heq] at hcu
    refine ⟨iff_of_true (by rw [hcu]) hex, ?_, ?_⟩
    · intro e _
      rw [hcu]
    · intro u db' p2 hok _
      rw [hcu] at hok
      exact absurd (Prod.mk.injEq _ _ _ _ |>.mp hok).1 (by simp)
  · have heq := insertUser_ok db
      (mkUser p (generate_unique_username db p.first_name p.last_name)) hex
    rw [heq] at hcu
    refine ⟨iff_of_false (by rw [hcu]; simp) hex, ?_, ?_⟩
    · intro e hcon
      rw [hcu] at hcon
      exact absurd hcon (by simp)
    · intro u db' p2 hok hemail
      rw [hcu] at hok
      have h1 := (Prod.mk.injEq _ _ _ _ |>.mp hok).1
      have h2 := (Prod.mk.injEq _ _ _ _ |>.mp hok).2
      have hu : u = mkUser p (generate_unique_username db p.first_name p.last_name) :=
        (Except.ok.inj h1).symm
      have hmem : u ∈ db' := by
        rw [← h2, hu]
        exact List.mem_append_right db (List.mem_singleton.mpr rfl)
      have hconf := insertUser_conflict db'
        (mkUser p2 (generate_unique_username db' p2.first_name p2.last_name))
        ⟨u, hmem, Or.inl (by rw [hu]; exact hemail.symm)⟩
      have : create_user db' p2 =
          insertUser db'
            (mkUser p2 (generate_unique_username db' p2.first_name p2.last_name)) := rfl
      rw [this, hconf]

/-- Witness for C4 at concrete inputs: registering a payload whose email
lowercases and trims to the already-stored ann@x.y conflicts both when fired
directly against the store and as the second of two sequential creates. -/
theorem C4_witness :
    (create_user [annUser] dupPayload).1 = .error .conflict ∧
    (create_user [annUser] dupPayload).2 = [annUser] := by
  have h1 := (C4_conflict_semantics [annUser] dupPayload).1.mpr
    ⟨annUser, by decide, Or.inl (by decide)⟩
  exact ⟨h1, (C4_conflict_semantics [annUser] dupPayload).2.1 .conflict h1⟩

/-! ### Claim C7: not-found semantics of fetch and delete -/

/-- Claim C7: fetch-by-handle and delete-by-handle raise NotFound exactly
when no record carries the handle; delete is a hard removal, so after a
successful delete the handle is gone and a second delete of it raises
NotFound. -/
theorem C7_notfound_semantics (db : List UserRecord) (hdb : Reachable db) (h : String) :
    (get_user h db = .error .notFound ↔ ∀ u ∈ db, u.username ≠ h) ∧
    ((delete_user h db).1 = .error .notFound ↔ ∀ u ∈ db, u.username ≠ h) ∧
    ((delete_user h db).1 = .ok () → ∀ u ∈ (delete_user h db).2, u.username ≠ h) ∧
    ((delete_user h db).1 = .ok () →
      (delete_user h (delete_user h db).2).1 = .error .notFound) := by
  have hremoved : (delete_user h db).1 = .ok () →
      ∀ u ∈ (delete_user h db).2, u.username ≠ h := by
    intro hok
    cases hf : db.find? (fun u => u.username == h) with
    | none =>
      rw [delete_user, hf] at hok
      exact absurd hok (by simp)
    | some u0 =>
      have hsnd : (delete_user h db).2 = db.eraseP (fun u => u.username == h) := by
        rw [delete_user, hf]
      rw [hsnd]
      intro u hu
      have hu0db : u0 ∈ db := List.mem_of_find?_eq_some hf
      have hpu0 := List.find?_some hf
      obtain ⟨a, l1, l2, hl1, hpa, hdb', her⟩ :=
        @List.exists_of_eraseP UserRecord (fun u => u.username == h) db u0 hu0db hpu0
      rw [her] at hu
      rcases List.mem_append.mp hu with hmem | hmem
      · intro hcon
        exact hl1 u hmem (beq_iff_eq.mpr hcon)
      · have hinv := reachable_storeInv db hdb
        have hpw := hinv.1
        rw [hdb'] at hpw
        have hr : a.username ≠ u.username :=
          ((List.pairwise_cons.mp (List.pairwise_append.mp hpw).2.1).1 u hmem).2
        have ha : a.username = h := beq_iff_eq.mp hpa
        intro hcon
        exact hr (by rw [ha, hcon])
  refine ⟨get_user_none_iff h db, delete_user_none_iff h db, hremoved, ?_⟩
  intro hok
  exact (delete_user_none_iff h _).mpr (hremoved hok)

/-- Witness for C7 at concrete inputs: fetching a never-created handle on a
reachable store reports not-found, and deleting Ann Lee's handle twice
reports not-found the second time. -/
theorem C7_witness :
    get_user "zzz" [annUser] = .error .notFound ∧
    (delete_user "alee" (delete_user "alee" [annUser]).2).1 = .error .notFound := by
  have hreach : Reachable [annUser] :=
    Reachable.create [] annPayload (.ok annUser) [annUser] Reachable.empty (by decide)
  exact ⟨(C7_notfound_semantics [annUser] hreach "zzz").1.mpr (by decide),
    (C7_notfound_semantics [annUser] hreach "alee").2.2.2 (by decide)⟩

/-! ### Claim C9: create followed by fetch round-trips -/

/-- Claim C9: when create succeeds and returns a record, an immediately
following fetch of its handle returns that very record, whose fields are the
payload fields with names and phone trimmed and the email lowercased and
trimmed. -/
theorem C9_create_get_roundtrip (db : List UserRecord) (p : UserCreate)
    (u : UserRecord) (db' : List UserRecord) (h : create_user db p = (.ok u, db')) :
    get_user u.username db' = .ok u ∧
    u.first_name = pyStrip p.first_name ∧ u.last_name = pyStrip p.last_name ∧
    u.birth_date = p.birth_date ∧ u.email = pyStrip (pyLower p.email) ∧
    u.phone = pyStrip p.phone := by
  have hcu : create_user db p =
      insertUser db (mkUser p (generate_unique_username db p.first_name p.last_name)) := rfl
  by_cases hex : ∃ v ∈ db,
      v.email = (mkUser p (generate_unique_username db p.first_name p.last_name)).email ∨
        v.username = (mkUser p (generate_unique_username db p.first_name p.last_name)).username
  · rw [hcu, insertUser_conflict db _ hex] at h
    exact absurd (Prod.mk.injEq _ _ _ _ |>.mp h).1 (by simp)
  · rw [hcu, insertUser_ok db _ hex] at h
    have h1 := (Prod.mk.injEq _ _ _ _ |>.mp h).1
    have h2 := (Prod.mk.injEq _ _ _ _ |>.mp h).2
    have hu : u = mkUser p (generate_unique_username db p.first_name p.last_name) :=
      (Except.ok.inj h1).symm
    refine ⟨?_, by rw [hu]; rfl, by rw [hu]; rfl, by rw [hu]; rfl, by rw [hu]; rfl,
      by rw [hu]; rfl⟩
    rw [← h2, get_user]
    have hnone : db.find? (fun v => v.username == u.username) = none := by
      rw [List.find?_eq_none]
      intro v hv hcon
      exact hex ⟨v, hv, Or.inr (by rw [← hu]; exact beq_iff_eq.mp hcon)⟩
    rw [List.find?_append, hnone]
    simp [List.find?, hu]

/-- Witness for C9 at concrete inputs: creating Ann Lee on the empty store
and fetching the returned handle gives back the persisted record. -/
theorem C9_witness :
    get_user annUser.username [annUser] = .ok annUser ∧
    annUser.first_name = pyStrip annPayload.first_name ∧
    annUser.last_name = pyStrip annPayload.last_name ∧
    annUser.birth_date = annPayload.birth_date ∧
    annUser.email = pyStrip (pyLower annPayload.email) ∧
    annUser.phone = pyStrip annPayload.phone :=
  C9_create_get_roundtrip [] annPayload annUser [annUser] (by decide)

/-! ### Claim C10: lookup and delete match handles exactly -/

/-- Claim C10: fetch and delete match the handle by exact case-sensitive
equality, and since every stored handle is lowercase alphanumeric, any lookup
argument containing a character outside a-z0-9 (an uppercase letter, a space,
punctuation) is reported not-found on every reachable store. -/
theorem C10_exact_handle_match (db : List UserRecord) (hdb : Reachable db) (s : String) :
    (∀ u, get_user s db = .ok u → u.username = s) ∧
    ((∃ c ∈ s.data, isLowerAlnum c = false) →
      get_user s db = .error .notFound ∧ (delete_user s db).1 = .error .notFound) := by
  constructor
  · intro u hu
    rw [get_user] at hu
    cases hf : db.find? (fun v => v.username == s) with
    | none =>
      rw [hf] at hu
      exact absurd hu (by simp)
    | some v =>
      rw [hf] at hu
      have hv : v = u := Except.ok.inj hu
      have hb := List.find?_some hf
      rw [← hv]
      exact beq_iff_eq.mp hb
  · intro ⟨c, hc, hbad⟩
    have hall : ∀ u ∈ db, u.username ≠ s := by
      intro u hu hcon
      have hchars := (reachable_storeInv db hdb).2 u hu |>.2
      rw [hcon] at hchars
      rw [hchars c hc] at hbad
      exact Bool.noConfusion hbad
    exact ⟨(get_user_none_iff s db).mpr hall, (delete_user_none_iff s db).mpr hall⟩

/-- Witness for C10 at concrete inputs: looking up Alee (capital A) misses the
stored handle alee. -/
theorem C10_witness :
    get_user "Alee" [annUser] = .error .notFound ∧
    (delete_user "Alee" [annUser]).1 = .error .notFound :=
  (C10_exact_handle_match [annUser]
    (Reachable.create [] annPayload (.ok annUser) [annUser] Reachable.empty (by decide))
    "Alee").2 ⟨'A', by decide, by decide⟩

/-! ### Claim C5: the race window between probe and insert -/

/-- Insert phase of create_user when the username was resolved against an
earlier snapshot of the store: models the interleaving in which another
request commits between the resolver's existence probe and this request's
insert.  With both snapshots equal this is exactly create_user. -/
def create_user_race (dbProbe dbInsert : List UserRecord) (p : UserCreate) :
    Except ApiError UserRecord × List UserRecord :=
  insertUser dbInsert (mkUser p (generate_unique_username dbProbe p.first_name p.last_name))

theorem create_user_eq_race (db : List UserRecord) (p : UserCreate) :
    create_user db p = create_user_race db db p := rfl

/-- Counterexample to claim C5: Ann Lee's handle alee is resolved as free
against the probe snapshot (the empty store), another request then persists
alee, and the insert hits the handle constraint (the emails differ, so the
email constraint is not involved); create surfaces the undifferentiated
Conflict to the caller instead of retrying, so a handle collision is visible
as an error. -/
theorem C5_counterexample :
    create_user_race [] [annUser] annPayload2 = (.error .conflict, [annUser]) ∧
    (mkUser annPayload2
        (generate_unique_username [] annPayload2.first_name annPayload2.last_name)).username
      = annUser.username ∧
    (mkUser annPayload2
        (generate_unique_username [] annPayload2.first_name annPayload2.last_name)).email
      ≠ annUser.email := by decide

/-- Claim C5 as amended: when the insert fails because the resolved handle
was claimed in the race window, create performs no retry: it rolls the
transaction back (store unchanged) and raises to the caller the same
undifferentiated Conflict as for a duplicate email. -/
theorem C5_no_retry_conflict (dbProbe dbInsert : List UserRecord) (p : UserCreate)
    (h : ∃ v ∈ dbInsert,
      v.username = generate_unique_username dbProbe p.first_name p.last_name) :
    create_user_race dbProbe dbInsert p = (.error .conflict, dbInsert) := by
  obtain ⟨v, hv, heq⟩ := h
  exact insertUser_conflict dbInsert _ ⟨v, hv, Or.inr heq⟩

/-- Witness for the amended C5 at concrete inputs. -/
theorem C5_witness :
    create_user_race [] [annUser] annPayload2 = (.error .conflict, [annUser]) :=
  C5_no_retry_conflict [] [annUser] annPayload2 ⟨annUser, by decide, by decide⟩

/-! ### Claim C6: search semantics -/

/-- Predicate form of one conditional where clause: an absent or empty filter
accepts every record, a present non-empty one requires its condition. -/
def optClause (o : Option String) (p : String → UserRecord → Bool) : UserRecord → Bool :=
  fun u =>
    match o with
    | some s => if s = "" then true else p s u
    | none => true

theorem applyOpt_eq_filter (o : Option String) (p : String → UserRecord → Bool)
    (l : List UserRecord) : applyOpt o p l = l.filter (optClause o p) := by
  match o with
  | none => exact (List.filter_true l).symm
  | some s =>
    show (if s = "" then l else l.filter (p s)) = _
    by_cases h : s = ""
    · rw [if_pos h]
      have hcl : optClause (some s) p = fun _ => true := by
        funext u
        simp only [optClause]
        rw [if_pos h]
      rw [hcl, List.filter_true]
    · rw [if_neg h]
      apply List.filter_congr
      intro x _
      simp only [optClause]
      rw [if_neg h]

/-- Conjunction form of the search filter: the free-text clause and the five
per-field clauses, each applied only when present and non-empty, combined
with AND. -/
def searchPred (q first_name last_name email phone username : Option String)
    (u : UserRecord) : Bool :=
  optClause q qPred u &&
    optClause first_name (fun s v => ilike ("%" ++ pyStrip s ++ "%") v.first_name) u &&
    optClause last_name (fun s v => ilike ("%" ++ pyStrip s ++ "%") v.last_name) u &&
    optClause email (fun s v => ilike ("%" ++ pyLower (pyStrip s) ++ "%") v.email) u &&
    optClause phone (fun s v => ilike ("%" ++ pyStrip s ++ "%") v.phone) u &&
    optClause username (fun s v => ilike ("%" ++ pyLower (pyStrip s) ++ "%") v.username) u

/-- Claim C6 as amended: search returns exactly the stored records satisfying
the conjunction of the present filters, where each clause is the SQL ilike
match of the stripped filter text wrapped in percent signs (so the text's
percent and underscore characters act as wildcards, and surrounding
whitespace of the text is ignored) rather than plain substring containment of
the raw text; matches are listed in stored order, the first offset of them
skipped, at most limit returned. -/
theorem C6_search_semantics (q fn ln em ph un : Option String) (limit offset : Nat)
    (db : List UserRecord) :
    search_users q fn ln em ph un limit offset db =
      ((db.filter (searchPred q fn ln em ph un)).drop offset).take limit := by
  simp only [search_users]
  rw [applyOpt_eq_filter, applyOpt_eq_filter, applyOpt_eq_filter, applyOpt_eq_filter,
    applyOpt_eq_filter, applyOpt_eq_filter]
  simp only [List.filter_filter]
  refine congrArg (List.take limit) (congrArg (List.drop offset) ?_)
  apply List.filter_congr
  intro x _
  simp only [searchPred]
  generalize optClause q qPred x = b1
  generalize optClause fn (fun s v => ilike ("%" ++ pyStrip s ++ "%") v.first_name) x = b2
  generalize optClause ln (fun s v => ilike ("%" ++ pyStrip s ++ "%") v.last_name) x = b3
  generalize optClause em (fun s v => ilike ("%" ++ pyLower (pyStrip s) ++ "%") v.email) x = b4
  generalize optClause ph (fun s v => ilike ("%" ++ pyStrip s ++ "%") v.phone) x = b5
  generalize optClause un (fun s v => ilike ("%" ++ pyLower (pyStrip s) ++ "%") v.username) x
    = b6
  revert b1 b2 b3 b4 b5 b6
  decide

/-- Case-insensitive substring containment, exactly as claim C6 words the
matching: the field contains the given text as a case-insensitive substring
(no stripping of the text, no wildcard interpretation). -/
def ciContains (needle hay : String) : Bool :=
  let n := needle.data.map Char.toLower
  let hs := hay.data.map Char.toLower
  (List.range (hs.length + 1)).any fun i => n.isPrefixOf (hs.drop i)

/-- Free-text clause as claim C6 words it: some of the five fields contains
the text as a case-insensitive substring. -/
def claimQMatch (o : Option String) (u : UserRecord) : Bool :=
  match o with
  | some s => ciContains s u.first_name || ciContains s u.last_name ||
      ciContains s u.email || ciContains s u.phone || ciContains s u.username
  | none => true

/-- Per-field clause as claim C6 words it. -/
def claimFieldMatch (o : Option String) (f : UserRecord → String) (u : UserRecord) : Bool :=
  match o with
  | some s => ciContains s (f u)
  | none => true

/-- Search predicate as claim C6 words it: conjunction of the free-text
clause and the per-field clauses, each a case-insensitive substring test on
the given text. -/
def claimSearchPred (q first_name last_name email phone username : Option String)
    (u : UserRecord) : Bool :=
  claimQMatch q u &&
    claimFieldMatch first_name (fun v => v.first_name) u &&
    claimFieldMatch last_name (fun v => v.last_name) u &&
    claimFieldMatch email (fun v => v.email) u &&
    claimFieldMatch phone (fun v => v.phone) u &&
    claimFieldMatch username (fun v => v.username) u

/-- Counterexample to claim C6: with the free-text filter set to the text
" nn " (blanks around nn), the code strips the text and returns Ann Lee's
record, whereas no field of that record contains " nn " as a substring in any
letter case, so the claim's predicate selects no record: search is not the
claimed contains-the-text filter. -/
theorem C6_counterexample :
    search_users (some " nn ") none none none none none 50 0 [annUser] = [annUser] ∧
    (([annUser].filter
        (claimSearchPred (some " nn ") none none none none none)).drop 0).take 50 =
      ([] : List UserRecord) := by decide

/-- Witness for C2 at concrete inputs: Ann Lee derives the base alee, which
matches the specification's description, and its characters are lowercase
alphanumeric. -/
theorem C2_witness :
    deriveBase "Ann" "Lee" = specDerive "Ann" "Lee" ∧ deriveBase "Ann" "Lee" ≠ "" ∧
      isLowerAlnum 'a' = true :=
  ⟨(C2_derivation_pure "Ann" "Lee").1, (C2_derivation_pure "Ann" "Lee").2.1,
    (C2_derivation_pure "Ann" "Lee").2.2 'a' (by decide)⟩

/-- Witness for C8 at a concrete input. -/
theorem C8_witness :
    ∃ c, genAux (usernames ([] : List UserRecord)) (deriveBase "Ann" "Lee")
        (([] : List UserRecord).length + 1) 0 = some c ∧
      generate_unique_username [] "Ann" "Lee" = c ∧
      c ∉ usernames ([] : List UserRecord) :=
  C8_resolver_terminates [] "Ann" "Lee"

/-- Witness for the amended C6 at concrete inputs, exercising pagination:
limit 1 and offset 1 over two matching records select exactly the second in
stored order. -/
theorem C6_witness :
    search_users none none none none none none 1 1 [annUser, amyUser] =
      (([annUser, amyUser].filter (searchPred none none none none none none)).drop 1).take 1 :=
  C6_search_semantics none none none none none none 1 1 [annUser, amyUser]
